import Mathlib

/-!
Shallow embedding of `src/main.py` (Kruskal MST over a Union-Find).

Python lists are modelled as `List Int` with Python indexing semantics
(negative indices address from the end; anything else raises `IndexError`).
The two `while` loops inside `UnionFind.find` are modelled with explicit
fuel; exhausted fuel is the `diverge` outcome, distinct from `indexError`.
Call sites inside `union`/`kruskal` pass ample fuel (`2*n + 2`), which is
enough whenever the Python loop terminates.

Note on `find`'s compression loop: Python's multiple assignment
`vertex, self.parents[vertex] = self.parents[vertex], parent` evaluates the
right-hand side first and then assigns the targets left to right, so the
subscript `self.parents[vertex]` on the left uses the freshly updated
`vertex`.  The embedding reproduces exactly that.
-/

inductive PyResult (α : Type) where
  | ok (a : α)
  | indexError
  | diverge
deriving DecidableEq, Repr

/-- Python list indexing: a valid index is `0 ≤ i < len` or `-len ≤ i < 0`
(the latter addressing from the end). Returns the physical index. -/
def pyIdx (len : Nat) (i : Int) : Option Nat :=
  if 0 ≤ i ∧ i < (len : Int) then some i.toNat
  else if -(len : Int) ≤ i ∧ i < 0 then some ((len : Int) + i).toNat
  else none

/-- Python `l[i]` read. -/
def pyGet (l : List Int) (i : Int) : Option Int :=
  (pyIdx l.length i).bind (fun j => l[j]?)

/-- Python `l[i] = x` write. -/
def pySet? (l : List Int) (i : Int) (x : Int) : Option (List Int) :=
  (pyIdx l.length i).map (fun j => l.set j x)

structure UnionFind where
  parents : List Int
  ranks : List Int
deriving DecidableEq, Repr

/-- `UnionFind.__init__`: `parents = [0..n-1]`, `ranks = [1]*n`. -/
def UnionFind.init (vertices_nb : Nat) : UnionFind :=
  ⟨(List.range vertices_nb).map Int.ofNat, List.replicate vertices_nb 1⟩

/-- First loop of `find`: `while parents[parent] != parent: parent = parents[parent]`. -/
def findRoot (parents : List Int) : Nat → Int → PyResult Int
  | 0, _ => .diverge
  | fuel + 1, parent =>
    match pyGet parents parent with
    | none => .indexError
    | some q => if q = parent then .ok parent else findRoot parents fuel q

/-- Second loop of `find`:
`while vertex != parent: vertex, parents[vertex] = parents[vertex], parent`.
Per Python's left-to-right target assignment, each iteration sets
`vertex := parents[vertex]` first and then writes `parent` at the new vertex. -/
def compressLoop : List Int → Nat → Int → Int → PyResult (List Int)
  | _, 0, _, _ => .diverge
  | parents, fuel + 1, vertex, parent =>
    if vertex = parent then .ok parents
    else
      match pyGet parents vertex with
      | none => .indexError
      | some pv =>
        match pySet? parents pv parent with
        | none => .indexError
        | some parents2 => compressLoop parents2 fuel pv parent

/-- `UnionFind.find`. -/
def UnionFind.find (uf : UnionFind) (fuel : Nat) (vertex : Int) :
    PyResult (Int × UnionFind) :=
  match findRoot uf.parents fuel vertex with
  | .ok parent =>
    match compressLoop uf.parents fuel vertex parent with
    | .ok ps => .ok (parent, ⟨ps, uf.ranks⟩)
    | .indexError => .indexError
    | .diverge => .diverge
  | .indexError => .indexError
  | .diverge => .diverge

/-- `UnionFind.union`.  Faithful to the source: the attach writes go to
`parents[vertex2]` / `parents[vertex1]` (the *arguments*), not to the roots
`parent2` / `parent1`. -/
def UnionFind.union (uf : UnionFind) (vertex1 vertex2 : Int) :
    PyResult (Bool × UnionFind) :=
  let fuel := 2 * uf.parents.length + 2
  match uf.find fuel vertex1 with
  | .indexError => .indexError
  | .diverge => .diverge
  | .ok (parent1, uf1) =>
    match uf1.find fuel vertex2 with
    | .indexError => .indexError
    | .diverge => .diverge
    | .ok (parent2, uf2) =>
      if parent1 = parent2 then .ok (false, uf2)
      else
        match pyGet uf2.ranks parent1, pyGet uf2.ranks parent2 with
        | none, _ => .indexError
        | some _, none => .indexError
        | some r1, some r2 =>
          if r2 < r1 then
            match pySet? uf2.parents vertex2 parent1 with
            | none => .indexError
            | some ps => .ok (true, ⟨ps, uf2.ranks⟩)
          else if r1 < r2 then
            match pySet? uf2.parents vertex1 parent2 with
            | none => .indexError
            | some ps => .ok (true, ⟨ps, uf2.ranks⟩)
          else
            match pySet? uf2.parents vertex2 parent1 with
            | none => .indexError
            | some ps =>
              match pySet? uf2.ranks parent1 (r1 + 1) with
              | none => .indexError
              | some rs => .ok (true, ⟨ps, rs⟩)

structure Edge where
  from_ : Int
  to_ : Int
  weight : Int
deriving DecidableEq, Repr

structure Graph where
  vertices : List Int
  edges : List Edge
deriving DecidableEq, Repr

/-- Python `set.add`: the vertex list stays duplicate-free. -/
def addVertex (vs : List Int) (v : Int) : List Int :=
  if v ∈ vs then vs else vs ++ [v]

/-- `Graph.add_edge`. -/
def Graph.add_edge (g : Graph) (e : Edge) : Graph :=
  ⟨addVertex (addVertex g.vertices e.from_) e.to_, g.edges ++ [e]⟩

/-- `Graph.get_vertices_nb`. -/
def Graph.get_vertices_nb (g : Graph) : Nat := g.vertices.length

structure MinimumSpanningTree where
  edges : List Edge
  weight : Int
deriving DecidableEq, Repr

/-- Stable insertion into a weight-sorted list: an element is placed after
every element of strictly smaller weight and before equal-weight elements
already present (which originate later in the input of `sortEdges`). -/
def insertByWeight (e : Edge) : List Edge → List Edge
  | [] => [e]
  | x :: xs => if x.weight < e.weight then x :: insertByWeight e xs else e :: x :: xs

/-- `sorted(graph.edges, key=lambda e: e.weight)`: a stable ascending sort. -/
def sortEdges (l : List Edge) : List Edge := l.foldr insertByWeight []

/-- The `while` loop of `kruskal`, recursing over the remaining sorted edges
(`edges_idx` reaching past the end of the list is `IndexError`). -/
def kruskalLoop (nb : Nat) : List Edge → UnionFind → List Edge → Int →
    PyResult (List Edge × Int)
  | sorted_edges, u_find, min_path_edges, total_weight =>
    if (min_path_edges.length : Int) < (nb : Int) - 1 then
      match sorted_edges with
      | [] => .indexError
      | edge :: rest =>
        match u_find.find (2 * u_find.parents.length + 2) edge.from_ with
        | .indexError => .indexError
        | .diverge => .diverge
        | .ok (parent_f, uf1) =>
          match uf1.find (2 * uf1.parents.length + 2) edge.to_ with
          | .indexError => .indexError
          | .diverge => .diverge
          | .ok (parent_t, uf2) =>
            if parent_f ≠ parent_t then
              match uf2.union edge.from_ edge.to_ with
              | .indexError => .indexError
              | .diverge => .diverge
              | .ok (_, uf3) =>
                kruskalLoop nb rest uf3 (min_path_edges ++ [edge])
                  (total_weight + edge.weight)
            else kruskalLoop nb rest uf2 min_path_edges total_weight
    else .ok (min_path_edges, total_weight)

/-- `kruskal(graph)`. -/
def kruskal (graph : Graph) : PyResult MinimumSpanningTree :=
  let nb_of_vertices := graph.vertices.length
  let sorted_edges := sortEdges graph.edges
  match kruskalLoop graph.get_vertices_nb sorted_edges
      (UnionFind.init nb_of_vertices) [] 0 with
  | .ok (es, w) => .ok ⟨es, w⟩
  | .indexError => .indexError
  | .diverge => .diverge

/-- `create_graph()`: the reference fixture. -/
def create_graph : Graph :=
  ([⟨0, 1, 4⟩, ⟨0, 2, 4⟩, ⟨1, 2, 2⟩, ⟨1, 0, 4⟩, ⟨2, 0, 4⟩, ⟨2, 1, 2⟩,
    ⟨2, 3, 3⟩, ⟨2, 5, 2⟩, ⟨2, 4, 4⟩, ⟨3, 2, 3⟩, ⟨3, 4, 3⟩, ⟨4, 2, 4⟩,
    ⟨4, 3, 3⟩, ⟨5, 2, 2⟩, ⟨5, 4, 3⟩] : List Edge).foldl Graph.add_edge ⟨[], []⟩

/-! ### Specification-side helpers (used to state the claims) -/

/-- Undirected endpoint pairs of an edge list. -/
def edgePairs (es : List Edge) : List (Int × Int) :=
  es.map (fun e => (e.from_, e.to_))

/-- Label of a vertex in a labelling (default: its own name). -/
def labelOf (ls : List (Int × Int)) (v : Int) : Int :=
  ((ls.find? (fun p => p.1 = v)).map Prod.snd).getD v

/-- Merge the label classes of the two endpoints of one edge. -/
def mergeLabels (ls : List (Int × Int)) (u v : Int) : List (Int × Int) :=
  let lu := labelOf ls u
  let lv := labelOf ls v
  ls.map (fun p => if p.2 = lv then (p.1, lu) else p)

/-- Identity labelling of a vertex list. -/
def initLabels (vs : List Int) : List (Int × Int) := vs.map (fun v => (v, v))

/-- Do the edges connect all the vertices (single component)? -/
def connectsAll (vs : List Int) (es : List (Int × Int)) : Bool :=
  match es.foldl (fun ls e => mergeLabels ls e.1 e.2) (initLabels vs) with
  | [] => true
  | p :: rest => rest.all (fun q => q.2 == p.2)

/-- Acyclicity of an edge list over a vertex list: processing the edges in
order, an edge whose endpoints are already in one label class closes a cycle. -/
def acyclicOver (ls : List (Int × Int)) : List (Int × Int) → Bool
  | [] => true
  | e :: rest =>
    if labelOf ls e.1 = labelOf ls e.2 then false
    else acyclicOver (mergeLabels ls e.1 e.2) rest

/-- Is `sub` a spanning tree of `g` (connects every vertex, no cycle)? -/
def isSpanningTree (g : Graph) (sub : List Edge) : Bool :=
  connectsAll g.vertices (edgePairs sub) &&
    acyclicOver (initLabels g.vertices) (edgePairs sub)

/-- Total weight of an edge list. -/
def totalWeight (es : List Edge) : Int :=
  (es.map Edge.weight).foldl (fun a b => a + b) 0

/-- Minimum total weight over all spanning trees of `g` (none if `g` has no
spanning tree). -/
def minSpanningWeight (g : Graph) : Option Int :=
  match (g.edges.sublists.filter (isSpanningTree g)).map totalWeight with
  | [] => none
  | w :: ws => some (ws.foldl min w)

/-- Number of distinct roots (`parents[x] == x`) of a union-find state. -/
def countRoots (uf : UnionFind) : Nat :=
  ((List.range uf.parents.length).filter
    (fun j => uf.parents.getD j 0 == Int.ofNat j)).length

/-- Run a sequence of `union` calls, counting how many returned `true`. -/
def unionSeq : UnionFind → List (Int × Int) → PyResult (Nat × UnionFind)
  | uf, [] => .ok (0, uf)
  | uf, (a, b) :: rest =>
    match uf.union a b with
    | .indexError => .indexError
    | .diverge => .diverge
    | .ok (did, uf2) =>
      match unionSeq uf2 rest with
      | .indexError => .indexError
      | .diverge => .diverge
      | .ok (k, uf3) => .ok ((if did then 1 else 0) + k, uf3)

/-- Connected 5-vertex graph on which the mis-attached union makes `kruskal`
accept a cycle edge and miss vertex 4. -/
def gBad : Graph :=
  ([⟨0, 1, 1⟩, ⟨2, 3, 1⟩, ⟨1, 3, 1⟩, ⟨2, 0, 2⟩, ⟨3, 4, 3⟩] : List Edge).foldl
    Graph.add_edge ⟨[], []⟩

/-- Graph containing a self-loop edge. -/
def gSelfLoop : Graph :=
  ([⟨0, 0, 1⟩, ⟨0, 1, 2⟩] : List Edge).foldl Graph.add_edge ⟨[], []⟩

/-- The disconnected-graph scenario of the spec: vertices `{0,1}`, no edges. -/
def gTwoIsolated : Graph := ⟨[0, 1], []⟩

/-! ### Claim theorems -/

set_option maxRecDepth 4000

/-- C1 counterexample: on the fixture graph, `kruskal` does *not* return
total weight 8 with the four edges (1,2,2), (2,5,2), (2,3,3), (0,1,4). -/
theorem c1_fixture_counterexample :
    kruskal create_graph ≠
      .ok ⟨[⟨1, 2, 2⟩, ⟨2, 5, 2⟩, ⟨2, 3, 3⟩, ⟨0, 1, 4⟩], 8⟩ := by decide

/-- C1 amended: on the fixture graph, `kruskal` returns total weight 14 and
the stable-sort-determined edge list (1,2,2), (2,5,2), (2,3,3), (3,4,3),
(0,1,4). -/
theorem c1_fixture_amended :
    kruskal create_graph =
      .ok ⟨[⟨1, 2, 2⟩, ⟨2, 5, 2⟩, ⟨2, 3, 3⟩, ⟨3, 4, 3⟩, ⟨0, 1, 4⟩], 14⟩ := by
  decide

/-- C2 (code bug): on the connected graph `gBad`, `kruskal` returns total
weight 5, but the minimum weight over all spanning trees of `gBad` is 6 —
the mis-attached `union` write leaves root 2 detached, so the cycle-closing
edge (2,0,2) is accepted and vertex 4 is never reached. -/
theorem c2_optimality_codebug :
    kruskal gBad = .ok ⟨[⟨0, 1, 1⟩, ⟨2, 3, 1⟩, ⟨1, 3, 1⟩, ⟨2, 0, 2⟩], 5⟩ ∧
    minSpanningWeight gBad = some 6 := by
  constructor
  · decide
  · decide

/-- C3 (code bug): starting from a fresh 4-element union-find, after
`union(0,1)` and `union(2,3)` (both `true`), the equal-rank call
`union(1,3)` returns `true` but attaches the argument vertex 3 instead of
its root 2: afterwards `parents = [0,0,2,0]`, so `parents[2] = 2` still —
`b`'s root was never attached under `a`'s root as the claim requires. -/
theorem c3_union_by_rank_codebug :
    unionSeq (UnionFind.init 4) [(0, 1), (2, 3)] =
      .ok (2, ⟨[0, 0, 2, 2], [2, 1, 2, 1]⟩) ∧
    (⟨[0, 0, 2, 2], [2, 1, 2, 1]⟩ : UnionFind).union 1 3 =
      .ok (true, ⟨[0, 0, 2, 0], [3, 1, 2, 1]⟩) ∧
    pyGet [0, 0, 2, 0] 2 = some 2 := by
  refine ⟨by decide, by decide, by decide⟩

/-- C4 (code bug): `union(2,3)` returns `true`, but after the later call
`union(1,3)` (also `true`) the elements 2 and 3 are no longer connected:
`find(2)` returns root 2 while `find(3)` returns root 0. -/
theorem c4_union_permanence_codebug :
    unionSeq (UnionFind.init 4) [(0, 1), (2, 3), (1, 3)] =
      .ok (3, ⟨[0, 0, 2, 0], [3, 1, 2, 1]⟩) ∧
    (⟨[0, 0, 2, 0], [3, 1, 2, 1]⟩ : UnionFind).find 9 2 =
      .ok (2, ⟨[0, 0, 2, 0], [3, 1, 2, 1]⟩) ∧
    (⟨[0, 0, 2, 0], [3, 1, 2, 1]⟩ : UnionFind).find 9 3 =
      .ok (0, ⟨[0, 0, 2, 0], [3, 1, 2, 1]⟩) ∧
    (2 : Int) ≠ 0 := by
  refine ⟨by decide, by decide, by decide, by decide⟩

/-- C5 (code bug): starting from 4 singleton sets, the three `true`-returning
unions `union(0,1)`, `union(2,3)`, `union(1,3)` leave 2 distinct roots, not
`4 - 3 = 1`: the third union does not decrease the root count at all. -/
theorem c5_root_count_codebug :
    unionSeq (UnionFind.init 4) [(0, 1), (2, 3), (1, 3)] =
      .ok (3, ⟨[0, 0, 2, 0], [3, 1, 2, 1]⟩) ∧
    countRoots ⟨[0, 0, 2, 0], [3, 1, 2, 1]⟩ = 2 ∧
    4 - 3 = 1 ∧ (2 : Nat) ≠ 1 := by
  refine ⟨by decide, by decide, by decide, by decide⟩

/-- C6 (code bug): the edge list `kruskal` returns on `gBad` itself forms a
cycle — the edges (0,1), (2,3), (1,3), (2,0) close the cycle 0-1-3-2-0 —
even though replaying those edges through the (buggy) union-find reports
every union as `true`. -/
theorem c6_acyclicity_codebug :
    kruskal gBad = .ok ⟨[⟨0, 1, 1⟩, ⟨2, 3, 1⟩, ⟨1, 3, 1⟩, ⟨2, 0, 2⟩], 5⟩ ∧
    acyclicOver (initLabels gBad.vertices)
      (edgePairs [⟨0, 1, 1⟩, ⟨2, 3, 1⟩, ⟨1, 3, 1⟩, ⟨2, 0, 2⟩]) = false := by
  refine ⟨by decide, by decide⟩

/-- C7 counterexample: on the disconnected graph with vertices `{0,1}` and
no edges, `kruskal` fails with an unchecked out-of-bounds index access
(there is no `GraphNotConnected` error anywhere in the code). -/
theorem c7_disconnected_counterexample :
    kruskal gTwoIsolated = .indexError := by decide

/-- C8 counterexample: on a fresh 2-element union-find, `find(-1)` is an
out-of-range index by the claim's `[0, n)` contract, yet it is silently
tolerated: Python's negative indexing resolves it to the last slot and the
call returns root 1 normally. -/
theorem c8_negative_index_counterexample :
    (UnionFind.init 2).find 3 (-1) = .ok (1, UnionFind.init 2) := by decide

/-! ### General lemmas about the embedded operations -/

theorem pyGet_oob (l : List Int) (v : Int)
    (h : (l.length : Int) ≤ v ∨ v < -(l.length : Int)) : pyGet l v = none := by
  unfold pyGet pyIdx
  split_ifs with h1 h2
  · omega
  · omega
  · rfl

theorem findRoot_oob (l : List Int) (f : Nat) (v : Int)
    (h : (l.length : Int) ≤ v ∨ v < -(l.length : Int)) :
    findRoot l (f + 1) v = .indexError := by
  simp [findRoot, pyGet_oob l v h]

theorem find_oob (uf : UnionFind) (f : Nat) (v : Int)
    (h : ((uf.parents.length : Int) ≤ v ∨ v < -(uf.parents.length : Int))) :
    uf.find (f + 1) v = .indexError := by
  simp [UnionFind.find, findRoot_oob uf.parents f v h]

theorem union_oob (uf : UnionFind) (v w : Int)
    (h : ((uf.parents.length : Int) ≤ v ∨ v < -(uf.parents.length : Int))) :
    uf.union v w = .indexError := by
  have e : 2 * uf.parents.length + 2 = (2 * uf.parents.length + 1) + 1 := rfl
  simp only [UnionFind.union, e, find_oob uf (2 * uf.parents.length + 1) v h]

/-- C8 amended: an index at or above `n`, or below `-n`, makes `find` (and
`union`, which calls `find` on its first argument) fail with an index error;
but indices in `[-n, -1]` are *silently tolerated* by Python's negative
indexing (see the counterexample), so the claim's `[0, n)` contract is not
what the code enforces. -/
theorem c8_out_of_range_amended (uf : UnionFind) (f : Nat) (v w : Int)
    (hf : 1 ≤ f)
    (h : (uf.parents.length : Int) ≤ v ∨ v < -(uf.parents.length : Int)) :
    uf.find f v = .indexError ∧ uf.union v w = .indexError := by
  obtain ⟨f', rfl⟩ : ∃ f', f = f' + 1 := ⟨f - 1, by omega⟩
  exact ⟨find_oob uf f' v h, union_oob uf v w h⟩

/-- Witness for C8 amended: a fresh 2-element union-find and index 5. -/
theorem c8_out_of_range_amended_witness :
    (UnionFind.init 2).find 1 5 = .indexError ∧
    (UnionFind.init 2).union 5 0 = .indexError :=
  c8_out_of_range_amended (UnionFind.init 2) 1 5 0 (by decide) (by decide)

/-- C7 amended: on a graph with at least two vertices and no edges at all
(the spec's disconnected scenario), `kruskal` fails with an unchecked
out-of-bounds index access into the sorted edge list; the code never raises
a `GraphNotConnected` error (no such error exists in it). -/
theorem c7_disconnected_amended (g : Graph) (h1 : g.edges = [])
    (h2 : 2 ≤ g.vertices.length) : kruskal g = .indexError := by
  obtain ⟨vs, es⟩ := g
  simp only at h1 h2
  subst h1
  unfold kruskal kruskalLoop
  simp only [sortEdges, List.foldr, Graph.get_vertices_nb, List.length_nil]
  rw [if_pos (by push_cast; omega)]

/-- Witness for C7 amended: vertices `{0,1}`, no edges. -/
theorem c7_disconnected_amended_witness : kruskal ⟨[0, 1], []⟩ = .indexError :=
  c7_disconnected_amended ⟨[0, 1], []⟩ (by decide) (by decide)

/-- C9: on a graph with zero vertices and no edges, `kruskal` returns the
degenerate MST with an empty edge list and total weight 0. -/
theorem c9_empty_graph (g : Graph) (h1 : g.get_vertices_nb = 0)
    (h2 : g.edges = []) : kruskal g = .ok ⟨[], 0⟩ := by
  obtain ⟨vs, es⟩ := g
  simp only [Graph.get_vertices_nb] at h1
  simp only at h2
  subst h2
  rw [List.length_eq_zero] at h1
  subst h1
  decide

/-- Witness for C9: the empty graph. -/
theorem c9_empty_graph_witness : kruskal ⟨[], []⟩ = .ok ⟨[], 0⟩ :=
  c9_empty_graph ⟨[], []⟩ (by decide) (by decide)

/-! ### Lemmas towards C10: a `find` right after a `find` on the same vertex
returns the same root. -/

theorem pyIdx_lt (len : Nat) (i : Int) (j : Nat) (h : pyIdx len i = some j) :
    j < len := by
  unfold pyIdx at h
  split_ifs at h with h1 h2 <;> injection h with h' <;> omega

theorem pyGet_of_idx (l : List Int) (i : Int) (j : Nat)
    (h : pyIdx l.length i = some j) : pyGet l i = l[j]? := by
  unfold pyGet
  rw [h]
  rfl

theorem pySet?_length (l : List Int) (i x : Int) (l2 : List Int)
    (h : pySet? l i x = some l2) : l2.length = l.length := by
  unfold pySet? at h
  cases hj : pyIdx l.length i with
  | none => rw [hj] at h; exact absurd h (by simp)
  | some j =>
    rw [hj] at h
    simp only [Option.map_some'] at h
    injection h with h'
    rw [← h', List.length_set]

theorem pyGet_pySet? (l : List Int) (p x : Int) (l2 : List Int)
    (h : pySet? l p x = some l2) (i : Int) :
    pyGet l2 i = pyGet l i ∨ pyGet l2 i = some x := by
  have hlen := pySet?_length l p x l2 h
  unfold pySet? at h
  cases hj : pyIdx l.length p with
  | none => rw [hj] at h; exact absurd h (by simp)
  | some j =>
    rw [hj] at h
    simp only [Option.map_some'] at h
    injection h with h'
    have hjlt : j < l.length := pyIdx_lt l.length p j hj
    cases hm : pyIdx l.length i with
    | none =>
      left
      unfold pyGet
      rw [hlen, hm]
      rfl
    | some m =>
      rw [pyGet_of_idx l i m hm, pyGet_of_idx l2 i m (by rw [hlen]; exact hm)]
      by_cases hmj : m = j
      · right
        subst hmj
        rw [← h', List.getElem?_set_eq_of_lt x hjlt]
      · left
        rw [← h', List.getElem?_set_ne (fun hc => hmj hc.symm)]

theorem findRoot_ok_fix (ps : List Int) (f : Nat) (v r : Int)
    (h : findRoot ps f v = .ok r) : pyGet ps r = some r := by
  induction f generalizing v with
  | zero => exact absurd h (by simp [findRoot])
  | succ f ih =>
    rw [findRoot] at h
    cases hg : pyGet ps v with
    | none => rw [hg] at h; exact absurd h (by simp)
    | some q =>
      rw [hg] at h
      dsimp only at h
      by_cases hqv : q = v
      · rw [if_pos hqv] at h
        injection h with h'
        subst h'
        rw [hg, hqv]
      · rw [if_neg hqv] at h
        exact ih q h

theorem findRoot_fix_val (ps : List Int) (f : Nat) (r x : Int)
    (hr : pyGet ps r = some r) (h : findRoot ps f r = .ok x) : x = r := by
  cases f with
  | zero => exact absurd h (by simp [findRoot])
  | succ f =>
    rw [findRoot, hr] at h
    dsimp only at h
    rw [if_pos rfl] at h
    exact (PyResult.ok.inj h).symm

theorem compressLoop_writes (f : Nat) (ps ps2 : List Int) (v r : Int)
    (h : compressLoop ps f v r = .ok ps2) (i : Int) :
    pyGet ps2 i = pyGet ps i ∨ pyGet ps2 i = some r := by
  induction f generalizing ps v with
  | zero => exact absurd h (by simp [compressLoop])
  | succ f ih =>
    rw [compressLoop] at h
    by_cases hvr : v = r
    · rw [if_pos hvr] at h
      injection h with h'
      rw [h']
      left; rfl
    · rw [if_neg hvr] at h
      cases hg : pyGet ps v with
      | none => rw [hg] at h; exact absurd h (by simp)
      | some pv =>
        rw [hg] at h
        dsimp only at h
        cases hs : pySet? ps pv r with
        | none => rw [hs] at h; exact absurd h (by simp)
        | some psA =>
          rw [hs] at h
          dsimp only at h
          rcases ih psA pv h with h2 | h2
          · rcases pyGet_pySet? ps pv r psA hs i with h3 | h3
            · left; rw [h2, h3]
            · right; rw [h2, h3]
          · right; exact h2

theorem findRoot_stable (ps ps2 : List Int) (r : Int)
    (H : ∀ i, pyGet ps2 i = pyGet ps i ∨ pyGet ps2 i = some r)
    (hr2 : pyGet ps2 r = some r) :
    ∀ (f2 : Nat) (v : Int) (f1 : Nat) (x : Int), findRoot ps f1 v = .ok r →
      findRoot ps2 f2 v = .ok x → x = r := by
  intro f2
  induction f2 with
  | zero => intro v f1 x _ h2; exact absurd h2 (by simp [findRoot])
  | succ f2 ih =>
    intro v f1 x h1 h2
    rw [findRoot] at h2
    cases hg2 : pyGet ps2 v with
    | none => rw [hg2] at h2; exact absurd h2 (by simp)
    | some q2 =>
      rw [hg2] at h2
      dsimp only at h2
      by_cases hq2v : q2 = v
      · -- the second walk stops at v; show that the first walk gives v too
        rw [if_pos hq2v] at h2
        rw [← PyResult.ok.inj h2]
        rcases H v with h3 | h3
        · rw [hg2, hq2v] at h3
          cases f1 with
          | zero => exact absurd h1 (by simp [findRoot])
          | succ f1 =>
            rw [findRoot, ← h3] at h1
            dsimp only at h1
            rw [if_pos rfl] at h1
            exact PyResult.ok.inj h1
        · rw [hg2, hq2v] at h3
          exact Option.some.inj h3
      · rw [if_neg hq2v] at h2
        rcases H v with h3 | h3
        · -- an untouched pointer: q2 lies on the first walk as well
          rw [hg2] at h3
          cases f1 with
          | zero => exact absurd h1 (by simp [findRoot])
          | succ f1 =>
            rw [findRoot, ← h3] at h1
            dsimp only at h1
            rw [if_neg hq2v] at h1
            exact ih q2 f1 x h1 h2
        · -- a rewritten pointer: it points at r, and ps2 is fixed at r
          rw [hg2] at h3
          rw [Option.some.inj h3] at h2
          exact findRoot_fix_val ps2 f2 r x hr2 h2

/-- The root returned by a `find` immediately following a `find` of the same
vertex is the same (the return value of `find` is observably idempotent). -/
theorem find_idem (uf : UnionFind) (f1 f2 : Nat) (v r r2 : Int)
    (uf1 uf2 : UnionFind) (h1 : uf.find f1 v = .ok (r, uf1))
    (h2 : uf1.find f2 v = .ok (r2, uf2)) : r2 = r := by
  unfold UnionFind.find at h1
  cases hfr : findRoot uf.parents f1 v with
  | indexError => rw [hfr] at h1; exact absurd h1 (by simp)
  | diverge => rw [hfr] at h1; exact absurd h1 (by simp)
  | ok parent =>
    rw [hfr] at h1
    dsimp only at h1
    cases hcl : compressLoop uf.parents f1 v parent with
    | indexError => rw [hcl] at h1; exact absurd h1 (by simp)
    | diverge => rw [hcl] at h1; exact absurd h1 (by simp)
    | ok ps =>
      rw [hcl] at h1
      dsimp only at h1
      injection h1 with h1'
      injection h1' with ha hb
      subst hb
      unfold UnionFind.find at h2
      dsimp only at h2
      cases hfr2 : findRoot ps f2 v with
      | indexError => rw [hfr2] at h2; exact absurd h2 (by simp)
      | diverge => rw [hfr2] at h2; exact absurd h2 (by simp)
      | ok parent2 =>
        rw [hfr2] at h2
        dsimp only at h2
        cases hcl2 : compressLoop ps f2 v parent2 with
        | indexError => rw [hcl2] at h2; exact absurd h2 (by simp)
        | diverge => rw [hcl2] at h2; exact absurd h2 (by simp)
        | ok ps2 =>
          rw [hcl2] at h2
          dsimp only at h2
          injection h2 with h2'
          injection h2' with ha2 hb2
          have H := fun i => compressLoop_writes f1 uf.parents ps v parent hcl i
          have hrp : pyGet ps parent = some parent := by
            rcases H parent with h3 | h3
            · rw [h3]
              exact findRoot_ok_fix uf.parents f1 v parent hfr
            · exact h3
          have hst : parent2 = parent :=
            findRoot_stable uf.parents ps parent H hrp f2 v f1 parent2 hfr hfr2
          rw [← ha2, ← ha, hst]

/-- C10: the edge list of any MST value that `kruskal` actually returns
contains no self-loop edge: `find` called twice on the equal endpoints gives
equal roots, so a self-loop is always skipped. -/
theorem c10_no_self_loops (g : Graph) (mst : MinimumSpanningTree)
    (h : kruskal g = .ok mst) : ∀ e ∈ mst.edges, e.from_ ≠ e.to_ := by
  have loopLem : ∀ (l : List Edge) (uf : UnionFind) (acc : List Edge)
      (tw : Int) (es : List Edge) (w : Int),
      kruskalLoop g.get_vertices_nb l uf acc tw = .ok (es, w) →
      (∀ e ∈ acc, e.from_ ≠ e.to_) → ∀ e ∈ es, e.from_ ≠ e.to_ := by
    intro l
    induction l with
    | nil =>
      intro uf acc tw es w h hacc
      rw [kruskalLoop] at h
      split at h
      · exact absurd h (by simp)
      · injection h with h'
        injection h' with ha hb
        subst ha
        exact hacc
    | cons edge rest ih =>
      intro uf acc tw es w h hacc
      rw [kruskalLoop] at h
      split at h
      case isFalse =>
        injection h with h'
        injection h' with ha hb
        subst ha
        exact hacc
      case isTrue hcond =>
        try dsimp only at h
        cases hf : uf.find (2 * uf.parents.length + 2) edge.from_ with
        | indexError => rw [hf] at h; exact absurd h (by simp)
        | diverge => rw [hf] at h; exact absurd h (by simp)
        | ok p1 =>
          obtain ⟨parent_f, uf1⟩ := p1
          rw [hf] at h
          dsimp only at h
          cases ht : uf1.find (2 * uf1.parents.length + 2) edge.to_ with
          | indexError => rw [ht] at h; exact absurd h (by simp)
          | diverge => rw [ht] at h; exact absurd h (by simp)
          | ok p2 =>
            obtain ⟨parent_t, uf2⟩ := p2
            rw [ht] at h
            dsimp only at h
            by_cases hne : parent_f ≠ parent_t
            · rw [if_pos hne] at h
              cases hu : uf2.union edge.from_ edge.to_ with
              | indexError => rw [hu] at h; exact absurd h (by simp)
              | diverge => rw [hu] at h; exact absurd h (by simp)
              | ok p3 =>
                obtain ⟨did, uf3⟩ := p3
                rw [hu] at h
                dsimp only at h
                refine ih uf3 (acc ++ [edge]) (tw + edge.weight) es w h ?_
                intro e he
                rcases List.mem_append.mp he with he | he
                · exact hacc e he
                · rw [List.mem_singleton] at he
                  subst he
                  intro hloop
                  rw [hloop] at hf
                  exact hne (find_idem uf _ _ e.to_ parent_f parent_t
                    uf1 uf2 hf ht).symm
            · rw [if_neg hne] at h
              exact ih uf2 acc tw es w h hacc
  simp only [kruskal] at h
  cases hk : kruskalLoop g.get_vertices_nb (sortEdges g.edges)
      (UnionFind.init g.vertices.length) [] 0 with
  | indexError => rw [hk] at h; exact absurd h (by simp)
  | diverge => rw [hk] at h; exact absurd h (by simp)
  | ok p =>
    obtain ⟨es, w⟩ := p
    rw [hk] at h
    dsimp only at h
    injection h with h'
    subst h'
    exact loopLem (sortEdges g.edges) (UnionFind.init g.vertices.length) [] 0
      es w hk (by intro e he; exact absurd he (List.not_mem_nil e))

/-- Witness for C10: `kruskal` succeeds on a graph with a self-loop at
vertex 0, and the edge in its returned list is not a self-loop. -/
theorem c10_no_self_loops_witness :
    (Edge.mk 0 1 2).from_ ≠ (Edge.mk 0 1 2).to_ :=
  c10_no_self_loops gSelfLoop ⟨[⟨0, 1, 2⟩], 2⟩ (by decide) ⟨0, 1, 2⟩ (by decide)
